import Mathlib

/-!
Verification of the public-road generation core of `src/road.cpp`
(OpenTTD_PatchPack).

The file shallowly embeds the road-specific functions of `road.cpp`
(`IsPossibleCrossing`, `CleanUpRoadBits`, `CanBuildRoadFromTo`,
`PublicRoad_CalculateG`, `PublicRoad_CalculateH`,
`PublicRoad_GetNeighbours`, `PublicRoad_FoundEndNode`,
`GeneratePublicRoads`) over an abstract terrain oracle.  The tile-map
accessors (`IsValidTile`, `GetTileType`, slopes, road bits, ...) live in
headers outside this repository snapshot; the spec declares them an
external collaborator ("Terrain Oracle"), so they are modelled as fields
of a `Terrain` record, faithful to the spec's description of that
interface.
-/

/-- A tile coordinate.  The spec models tiles as 2D grid positions that
support decomposition into x/y, directional offsets and Manhattan
distance; we use a pair of integers so that offsets never wrap. -/
abbrev Tile := Int × Int

/-- The four diagonal (cardinal, in grid terms) directions of OpenTTD:
north-east, south-east, south-west, north-west, in enumeration order
`DIAGDIR_BEGIN .. DIAGDIR_END`. -/
inductive DiagDirection where
  | ne | se | sw | nw
deriving DecidableEq

/-- The enumeration order of the `for (dir = DIAGDIR_BEGIN; ...)` loops. -/
def allDiagDirs : List DiagDirection := [.ne, .se, .sw, .nw]

/-- An axis: along X or along Y. -/
inductive Axis where
  | x | y
deriving DecidableEq

/-- DiagDirToAxis: NE/SW lie on the X axis, SE/NW on the Y axis. -/
def diagDirToAxis (d : DiagDirection) : Axis :=
  match d with
  | .ne => .x
  | .sw => .x
  | .se => .y
  | .nw => .y

/-- The opposite cardinal direction (ReverseDiagDir). -/
def oppositeDir (d : DiagDirection) : DiagDirection :=
  match d with
  | .ne => .sw
  | .sw => .ne
  | .se => .nw
  | .nw => .se

/-- TileOffsByDiagDir / TileAddByDiagDir: the coordinate offsets used by
OpenTTD are NE = (-1, 0), SE = (0, 1), SW = (1, 0), NW = (0, -1). -/
def tileAddByDiagDir (t : Tile) (d : DiagDirection) : Tile :=
  match d with
  | .ne => (t.1 - 1, t.2)
  | .se => (t.1, t.2 + 1)
  | .sw => (t.1 + 1, t.2)
  | .nw => (t.1, t.2 - 1)

/-- DiagdirBetweenTiles: the direction that steps from `a` to `b`, when
the two tiles are grid-adjacent; `none` models INVALID_DIAGDIR. -/
def diagdirBetweenTiles (a b : Tile) : Option DiagDirection :=
  if b = tileAddByDiagDir a .ne then some .ne
  else if b = tileAddByDiagDir a .se then some .se
  else if b = tileAddByDiagDir a .sw then some .sw
  else if b = tileAddByDiagDir a .nw then some .nw
  else none

/-- DistanceManhattan of two tiles: |dx| + |dy|. -/
def DistanceManhattan (a b : Tile) : Nat :=
  (a.1 - b.1).natAbs + (a.2 - b.2).natAbs

/-- A road-bit set: a bitmask over the four directions.  Field `nw`
models ROAD_NW (bit 0), `sw` ROAD_SW (bit 1), `se` ROAD_SE (bit 2),
`ne` ROAD_NE (bit 3). -/
structure RoadBits where
  nw : Bool
  sw : Bool
  se : Bool
  ne : Bool
deriving DecidableEq

/-- ROAD_NONE: the empty road-bit set. -/
def RoadBits.none : RoadBits := ⟨false, false, false, false⟩

/-- Bitwise or of two road-bit sets. -/
def rbOr (a b : RoadBits) : RoadBits :=
  ⟨a.nw || b.nw, a.sw || b.sw, a.se || b.se, a.ne || b.ne⟩

/-- Bitwise and of two road-bit sets. -/
def rbAnd (a b : RoadBits) : RoadBits :=
  ⟨a.nw && b.nw, a.sw && b.sw, a.se && b.se, a.ne && b.ne⟩

/-- Bitwise xor of two road-bit sets (used by the source to strip a bit
that is known to be set). -/
def rbXor (a b : RoadBits) : RoadBits :=
  ⟨xor a.nw b.nw, xor a.sw b.sw, xor a.se b.se, xor a.ne b.ne⟩

/-- Truthiness of a road-bit set, i.e. the C test `rb != ROAD_NONE`. -/
def rbNe0 (a : RoadBits) : Bool :=
  a.nw || a.sw || a.se || a.ne

/-- Whether direction `d`'s bit is set. -/
def hasBit (a : RoadBits) (d : DiagDirection) : Bool :=
  match d with
  | .nw => a.nw
  | .sw => a.sw
  | .se => a.se
  | .ne => a.ne

/-- DiagDirToRoadBits: the single bit named after the direction
(`1 << (3 - dir)` in the source encoding). -/
def diagDirToRoadBits (d : DiagDirection) : RoadBits :=
  match d with
  | .nw => ⟨true, false, false, false⟩
  | .sw => ⟨false, true, false, false⟩
  | .se => ⟨false, false, true, false⟩
  | .ne => ⟨false, false, false, true⟩

/-- MirrorRoadBits: `(r & 0xC) >> 2 | (r & 0x3) << 2`, i.e. swap
NW with SE and SW with NE. -/
def mirrorRoadBits (r : RoadBits) : RoadBits :=
  ⟨r.se, r.ne, r.nw, r.sw⟩

/-- Road-bit subset: every bit of `a` is a bit of `b`. -/
def rbSub (a b : RoadBits) : Prop :=
  ∀ d, hasBit a d = true → hasBit b d = true

/-- The tile classes of the map (the `MP_xxx` tile types). -/
inductive TileType where
  | clear | railway | road | house | trees | station | water | void
  | industry | tunnelbridge | object
deriving DecidableEq

/-- The sub-kind of an MP_ROAD tile: normal piece, level crossing or
road depot. -/
inductive RoadTileType where
  | normal | crossing | depot
deriving DecidableEq

/-- The sub-kind of an MP_RAILWAY tile. -/
inductive RailTileType where
  | normal | signals | depot
deriving DecidableEq

/-- A road sub-type: plain road or tramway. -/
inductive RoadType where
  | road | tram
deriving DecidableEq

/-- A tile or infrastructure owner.  `town` models OWNER_TOWN and
`nobody` models OWNER_NONE; `company n` stands for any company. -/
inductive Owner where
  | town | nobody | company (n : Nat)
deriving DecidableEq

/-- A tile slope: flat ground, a single uniform incline towards a
direction, or any other slope shape.  Collapsing all remaining shapes
into `other` is harmless: the code only compares slopes for equality
under a guard that already requires one side to be flat or inclined. -/
inductive Slope where
  | flat | incline (d : DiagDirection) | other
deriving DecidableEq

/-- IsInclinedSlope: the slope is one of the four uniform inclines. -/
def isInclinedSlope (s : Slope) : Bool :=
  match s with
  | .incline _ => true
  | _ => false

/-- Numeric encoding of a rail track bitmask; only the two straight
full-tile tracks matter here. -/
def TRACK_BIT_X : Nat := 1

/-- Track along the Y axis. -/
def TRACK_BIT_Y : Nat := 2

/-- Modelled from the spec: the per-tile answers of the Terrain Oracle
(tile type, slope and height, existing road bits per road sub-type,
rail data for crossing checks, water kind, ownership).  These accessors
live in map headers outside this repository snapshot; the spec lists
them as the consumed Terrain Oracle API. -/
structure TileData where
  ttype : TileType
  roadTileType : RoadTileType
  roadBitsRoad : RoadBits
  roadBitsTram : RoadBits
  town : Nat
  roadOwner : Owner
  tramOwner : Owner
  railTileType : RailTileType
  trackBits : Nat
  foundationSlope : Slope
  slope : Slope
  height : Int
  water : Bool
deriving DecidableEq

/-- A terrain map: tile validity (IsValidTile) plus per-tile data. -/
structure Terrain where
  valid : Tile → Bool
  data : Tile → TileData

/-- IsTileType(t, ty). -/
def isTileType (t : Terrain) (p : Tile) (ty : TileType) : Bool :=
  decide ((t.data p).ttype = ty)

/-- Modelled from the spec: IsNormalRoadTile — the tile "already has a
standard road tile", i.e. it is an MP_ROAD tile of the normal kind. -/
def isNormalRoadTile (d : TileData) : Bool :=
  decide (d.ttype = TileType.road) && decide (d.roadTileType = RoadTileType.normal)

/-- Modelled from the spec: GetAnyRoadBits — the road-bit set the tile
carries for the given road sub-type ("unioned across all road sub-types
present there" is done by the caller). -/
def getAnyRoadBits (d : TileData) (rt : RoadType) : RoadBits :=
  match rt with
  | .road => d.roadBitsRoad
  | .tram => d.roadBitsTram

/-- IsPossibleCrossing from road.cpp: the neighbor is a valid tile for a
level crossing iff it is a plain rail tile whose single straight track
is perpendicular to the road axis and whose foundation is flat. -/
def IsPossibleCrossing (t : Terrain) (tile : Tile) (ax : Axis) : Bool :=
  isTileType t tile .railway &&
  decide ((t.data tile).railTileType = RailTileType.normal) &&
  decide ((t.data tile).trackBits = (if ax = Axis.x then TRACK_BIT_Y else TRACK_BIT_X)) &&
  decide ((t.data tile).foundationSlope = Slope.flat)

/-- The per-direction connectivity decision inside CleanUpRoadBits's
loop body: is the neighbor of `tile` in direction `dir` connective? -/
def connectiveDir (t : Terrain) (tile : Tile) (dir : DiagDirection) : Bool :=
  let neighbor_tile := tileAddByDiagDir tile dir
  let target_rb := diagDirToRoadBits dir
  let mirrored_rb := mirrorRoadBits target_rb
  if t.valid neighbor_tile then
    match (t.data neighbor_tile).ttype with
    | .clear => true
    | .trees => true
    | .tunnelbridge | .station | .road =>
      if isNormalRoadTile (t.data neighbor_tile) then true
      else
        rbNe0 (rbAnd (rbOr (getAnyRoadBits (t.data neighbor_tile) .road)
                           (getAnyRoadBits (t.data neighbor_tile) .tram)) mirrored_rb)
    | .railway => IsPossibleCrossing t neighbor_tile (diagDirToAxis dir)
    | .water => !(t.data neighbor_tile).water
    | _ => false
  else false

/-- One iteration of CleanUpRoadBits's loop: if direction `dir` is in
the current plan and its neighbor is inconnective, strip its bit. -/
def cleanStep (t : Terrain) (tile : Tile) (rb : RoadBits) (dir : DiagDirection) : RoadBits :=
  let target_rb := diagDirToRoadBits dir
  if rbNe0 (rbAnd rb target_rb) then
    if !connectiveDir t tile dir then rbXor rb target_rb else rb
  else rb

/-- CleanUpRoadBits from road.cpp: returns ROAD_NONE on an invalid
tile, otherwise walks the four directions and strips every planned bit
whose neighbor is inconnective. -/
def CleanUpRoadBits (t : Terrain) (tile : Tile) (org_rb : RoadBits) : RoadBits :=
  if !t.valid tile then RoadBits.none
  else allDiagDirs.foldl (cleanStep t tile) org_rb

/-- Modelled from the spec: the Connectivity Validator's per-direction
case analysis (spec section 4.2), written from the spec's words: clear
ground or trees always connective; tunnel/bridge, station or road
neighbor connective unconditionally when it is a standard road tile and
otherwise only when its road bits unioned across sub-types contain the
mirrored direction back toward the tile; railway only when a plain
straight rail perpendicular to the crossing axis on flat foundation;
water only when not real water; everything else, and an invalid
neighbor, non-connective. -/
def specConnective (t : Terrain) (tile : Tile) (dir : DiagDirection) : Bool :=
  let n := tileAddByDiagDir tile dir
  if !(t.valid n) then false
  else
    match (t.data n).ttype with
    | .clear => true
    | .trees => true
    | .tunnelbridge | .station | .road =>
      isNormalRoadTile (t.data n) ||
      rbNe0 (rbAnd (rbOr (getAnyRoadBits (t.data n) .road) (getAnyRoadBits (t.data n) .tram))
                   (diagDirToRoadBits (oppositeDir dir)))
    | .railway =>
      decide ((t.data n).railTileType = RailTileType.normal) &&
      decide ((t.data n).trackBits = (if diagDirToAxis dir = Axis.x then TRACK_BIT_Y else TRACK_BIT_X)) &&
      decide ((t.data n).foundationSlope = Slope.flat)
    | .water => !(t.data n).water
    | _ => false

/-- Witness for claim C1 at a concrete terrain, tile and plan. -/
def egTerrain : Terrain where
  valid := fun p => decide (0 ≤ p.1 ∧ p.1 < 8 ∧ 0 ≤ p.2 ∧ p.2 < 8)
  data := fun p =>
    { ttype := if p = (2, 1) then TileType.water else TileType.clear
      roadTileType := RoadTileType.normal
      roadBitsRoad := RoadBits.none
      roadBitsTram := RoadBits.none
      town := 0
      roadOwner := Owner.nobody
      tramOwner := Owner.nobody
      railTileType := RailTileType.normal
      trackBits := 0
      foundationSlope := Slope.flat
      slope := Slope.flat
      height := 0
      water := p = (2, 1) }

/-- CanBuildRoadFromTo from road.cpp: a road can continue over the step
`begin -> end` iff the end slope is flat or a single uniform incline,
and either the slope continues at a different height or one of the two
ends is flat.  The `assert(DistanceManhattan(begin, end) == 1)` contract
is carried as a hypothesis of the theorems about this function. -/
def CanBuildRoadFromTo (t : Terrain) (begin_t end_t : Tile) : Bool :=
  let slopeBegin := (t.data begin_t).slope
  let slopeEnd := (t.data end_t).slope
  let heightBegin := (t.data begin_t).height
  let heightEnd := (t.data end_t).height
  (decide (slopeEnd = Slope.flat) || isInclinedSlope slopeEnd) &&
  ((decide (slopeEnd = slopeBegin) && !decide (heightEnd = heightBegin)) ||
   decide (slopeEnd = Slope.flat) || decide (slopeBegin = Slope.flat))

/-- Modelled from the spec: the edge-admissibility wording of the spec
(section 4.1): the neighbor's slope is flat or a single uniform
incline, AND either both endpoints have the same incline direction but
different heights, or at least one endpoint is flat. -/
def specEdgeAdmissible (t : Terrain) (begin_t end_t : Tile) : Prop :=
  ((t.data end_t).slope = Slope.flat ∨ ∃ d, (t.data end_t).slope = Slope.incline d) ∧
  ((∃ d, (t.data begin_t).slope = Slope.incline d ∧ (t.data end_t).slope = Slope.incline d ∧
      (t.data begin_t).height ≠ (t.data end_t).height) ∨
    (t.data begin_t).slope = Slope.flat ∨ (t.data end_t).slope = Slope.flat)

/-- PublicRoad_GetNeighbours from road.cpp: for each of the four
directions in enumeration order, keep the offset tile when it is a
valid map position, the edge from the current tile is buildable, and
its tile type is clear ground, trees or road. -/
def PublicRoad_GetNeighbours (t : Terrain) (tile : Tile) : List Tile :=
  allDiagDirs.filterMap (fun d =>
    let t2 := tileAddByDiagDir tile d
    if t.valid t2 && CanBuildRoadFromTo t tile t2 &&
        (isTileType t t2 .clear || isTileType t t2 .trees || isTileType t t2 .road)
    then some t2 else none)

/-- PublicRoad_CalculateG: every step has constant cost 1. -/
def PublicRoad_CalculateG (_current _parent : Tile) : Nat := 1

/-- PublicRoad_CalculateH: the estimated remaining cost is the
Manhattan distance between the target and the current tile. -/
def PublicRoad_CalculateH (target current : Tile) : Nat :=
  DistanceManhattan target current

/-- Total cost of a node sequence: the sum of PublicRoad_CalculateG
over its consecutive steps. -/
def pathCost : List Tile → Nat
  | [] => 0
  | [_] => 0
  | a :: b :: rest => PublicRoad_CalculateG b a + pathCost (b :: rest)

/-- The per-tile data of a terrain, as the mutable map state that path
materialization updates. -/
abbrev TerrMap := Tile → TileData

/-- Point update of the tile map (the effect of a SetRoadBits /
MakeRoadNormal call on one tile). -/
def updateTile (m : TerrMap) (t : Tile) (d : TileData) : TerrMap :=
  fun t' => if t' = t then d else m t'

/-- The single road bit pointing from `a` toward `b`
(DiagDirToRoadBits(DiagdirBetweenTiles(a, b))); empty when the tiles
are not adjacent. -/
def dirRoadBits (a b : Tile) : RoadBits :=
  match diagdirBetweenTiles a b with
  | some d => diagDirToRoadBits d
  | none => RoadBits.none

/-- The road bits the materialization loop computes for one path node:
the bit toward the already-visited neighbor (`child`) or-ed with the
bit toward the parent (`next`), each contributing only when present. -/
def stepBits (child : Option Tile) (tile : Tile) (next : Option Tile) : RoadBits :=
  rbOr
    (match child with
     | some c => dirRoadBits tile c
     | none => RoadBits.none)
    (match next with
     | some p => dirRoadBits tile p
     | none => RoadBits.none)

/-- Modelled from the spec: the effect of
MakeRoadNormal(tile, bits, ROADTYPES_ROAD, townID, OWNER_TOWN,
OWNER_NONE) on a tile's data — the tile becomes a plain normal road
tile carrying exactly `bits` for the road sub-type, no tram bits, the
given town, town ownership and no secondary (tram) owner.  Slope and
height belong to the landscape and are untouched. -/
def makeRoadNormalData (prev : TileData) (bits : RoadBits) (townID : Nat) : TileData :=
  { prev with
    ttype := TileType.road
    roadTileType := RoadTileType.normal
    roadBitsRoad := bits
    roadBitsTram := RoadBits.none
    town := townID
    roadOwner := Owner.town
    tramOwner := Owner.nobody
    water := false }

/-- The materialization walk of PublicRoad_FoundEndNode: traverse the
parent chain (head = goal node, tail towards the start), carrying the
previously visited node as `child`; every node with a child or a parent
gets road bits written — or-ed into an existing road tile, otherwise a
fresh normal road tile owned by the closest town.  The source also
counts the path length into an unused local, which has no effect and is
not modelled.  `ct` is the CalcClosestTownFromTile oracle (the
settlement registry's nearestSettlementTo, an external collaborator per
the spec). -/
def foundEndNodeGo (ct : Tile → Nat) (child : Option Tile) : List Tile → TerrMap → TerrMap
  | [], m => m
  | tile :: rest, m =>
    let townID := ct tile
    let roadBits := stepBits child tile rest.head?
    let m' :=
      if child.isSome || rest.head?.isSome then
        if (m tile).ttype = TileType.road then
          updateTile m tile
            { m tile with roadBitsRoad := rbOr (m tile).roadBitsRoad roadBits }
        else
          updateTile m tile (makeRoadNormalData (m tile) roadBits townID)
      else m
    foundEndNodeGo ct (some tile) rest m'

/-- PublicRoad_FoundEndNode from road.cpp, as a terrain transformer:
materialize the found path (given goal-first, following parent links)
onto the tile map.  Tile validity is not touched. -/
def PublicRoad_FoundEndNode (ct : Tile → Nat) (t : Terrain) (path : List Tile) : Terrain :=
  { valid := t.valid, data := foundEndNodeGo ct none path t.data }

/-- Whether the materialization walk writes to `tile` at some position
of the path (the node equals `tile` and has a child or a parent
there). -/
def touched (child : Option Tile) : List Tile → Tile → Bool
  | [], _ => false
  | t :: rest, tile =>
    (decide (t = tile) && (child.isSome || rest.head?.isSome)) || touched (some t) rest tile

/-- The union of the road bits the walk computes for `tile` over all
its written occurrences in the path. -/
def contrib (child : Option Tile) : List Tile → Tile → RoadBits
  | [], _ => RoadBits.none
  | t :: rest, tile =>
    rbOr
      (if (decide (t = tile) && (child.isSome || rest.head?.isSome)) = true
       then stepBits child t rest.head? else RoadBits.none)
      (contrib (some t) rest tile)

/-- The ways a tile's data can change under materialization: unchanged,
turned into a plain normal road tile, or an existing road tile whose
road bits only grew (kind and tram bits untouched). -/
def UpgradeData (d1 d2 : TileData) : Prop :=
  d2 = d1 ∨
  (d2.ttype = TileType.road ∧ d2.roadTileType = RoadTileType.normal) ∨
  (d1.ttype = TileType.road ∧ d2.ttype = TileType.road ∧
    d2.roadTileType = d1.roadTileType ∧ rbSub d1.roadBitsRoad d2.roadBitsRoad ∧
    d2.roadBitsTram = d1.roadBitsTram)

/-- The connectivity invariant of the spec: every valid committed road
tile has each of its set road bits pointing at a neighbor that is
connective for the mirrored direction per the Connectivity Validator's
rules. -/
def RoadInvariant (t : Terrain) : Prop :=
  ∀ (tile : Tile) (d : DiagDirection), t.valid tile = true →
    (t.data tile).ttype = TileType.road →
    hasBit (t.data tile).roadBitsRoad d = true →
    connectiveDir t tile d = true

/-- Modelled from the spec: a settlement of the external registry —
identifier, grid location and population (read-only). -/
structure Town where
  index : Nat
  xy : Tile
  population : Nat
deriving DecidableEq

/-- The population comparator of the first sort of a round
(`a->cache.population < b->cache.population` for std::sort; any sort
into ascending order is a faithful model since ties are unspecified). -/
def popLE (a b : Town) : Prop := a.population ≤ b.population

instance : DecidableRel popLE := fun a b => Nat.decLe a.population b.population

instance : IsTotal Town popLE := ⟨fun a b => Nat.le_total a.population b.population⟩

instance : IsTrans Town popLE := ⟨fun _ _ _ => Nat.le_trans⟩

/-- The distance-from-begin comparator of the second sort
(`DistanceManhattan(begin->xy, a->xy) < DistanceManhattan(begin->xy, b->xy)`). -/
def distLE (c : Tile) (a b : Town) : Prop :=
  DistanceManhattan c a.xy ≤ DistanceManhattan c b.xy

instance (c : Tile) : DecidableRel (distLE c) :=
  fun a b => Nat.decLe (DistanceManhattan c a.xy) (DistanceManhattan c b.xy)

instance (c : Tile) : IsTotal Town (distLE c) :=
  ⟨fun a b => Nat.le_total (DistanceManhattan c a.xy) (DistanceManhattan c b.xy)⟩

instance (c : Tile) : IsTrans Town (distLE c) := ⟨fun _ _ _ => Nat.le_trans⟩

/-- The round's first sort: unconnected towns by ascending population. -/
def sortByPopulation (ts : List Town) : List Town :=
  List.insertionSort popLE ts

/-- The round's second sort: remaining towns by ascending Manhattan
distance from the round's begin town. -/
def sortByDistanceFrom (b : Town) (ts : List Town) : List Town :=
  List.insertionSort (distLE b.xy) ts

/-- One round of GeneratePublicRoads' do-while body: sort the
unconnected towns by population, take the first as `begin` (erasing it
from the vector — `none` models the out-of-bounds read of
`*towns.begin()` on an empty vector), sort the rest by distance from
`begin`, and search each in that order, collecting every failed end
into the next round's unconnected set.  `found` abstracts the AyStar
run `finder.Main() == AYSTAR_FOUND_END_NODE` (the search engine lives
outside this repository snapshot), indexed by the round number because
earlier materializations change the terrain. -/
def roundStep (found : Nat → Town → Town → Bool) (r : Nat) (ts : List Town) :
    Option (Town × List Town × List Town) :=
  match sortByPopulation ts with
  | [] => none
  | b :: rest =>
    let ord := sortByDistanceFrom b rest
    some (b, ord, ord.filter (fun e => !found r b e))

/-- The do-while loop of GeneratePublicRoads: run rounds until the
still-unconnected set is empty; returns the number of rounds run, or
`none` when a round dereferences the begin iterator of an empty
vector. -/
def runRounds (found : Nat → Town → Town → Bool) (r : Nat) (ts : List Town) : Option Nat :=
  match h : roundStep found r ts with
  | none => none
  | some (_, _, next) =>
    if next.isEmpty then some (r + 1)
    else runRounds found (r + 1) next
termination_by ts.length
decreasing_by
  unfold roundStep at h
  cases hs : sortByPopulation ts with
  | nil => rw [hs] at h; exact absurd h (by simp)
  | cons x rest =>
    rw [hs] at h
    simp only [Option.some.injEq, Prod.mk.injEq] at h
    obtain ⟨-, -, hnext⟩ := h
    have hlen1 : (sortByDistanceFrom x rest).length = rest.length :=
      (List.perm_insertionSort (distLE x.xy) rest).length_eq
    have hlen2 : (sortByPopulation ts).length = ts.length :=
      (List.perm_insertionSort popLE ts).length_eq
    rw [hs] at hlen2
    calc next.length ≤ (sortByDistanceFrom x rest).length := by
          rw [← hnext]; exact List.length_filter_le _ _
      _ = rest.length := hlen1
      _ < ts.length := by rw [← hlen2]; simp

/-- GeneratePublicRoads from road.cpp: collect all towns as unconnected
and run rounds until none remain. -/
def GeneratePublicRoads (found : Nat → Town → Town → Bool) (towns : List Town) :
    Option Nat :=
  runRounds found 0 towns

/-- Example towns for the concrete evaluations. -/
def townA : Town := ⟨0, (0, 0), 10⟩

/-- Second example town. -/
def townB : Town := ⟨1, (3, 0), 20⟩

lemma mirror_diagDirToRoadBits (d : DiagDirection) :
    mirrorRoadBits (diagDirToRoadBits d) = diagDirToRoadBits (oppositeDir d) := by
  cases d <;> rfl

/-- The spec's wording and the code's loop body agree direction by
direction. -/
lemma specConnective_eq_connectiveDir (t : Terrain) (tile : Tile) (dir : DiagDirection) :
    specConnective t tile dir = connectiveDir t tile dir := by
  cases hv : t.valid (tileAddByDiagDir tile dir) with
  | false => simp [specConnective, connectiveDir, hv]
  | true =>
    cases hty : (t.data (tileAddByDiagDir tile dir)).ttype <;>
      simp [specConnective, connectiveDir, hv, hty, IsPossibleCrossing, isTileType,
        mirror_diagDirToRoadBits]

lemma cleanStep_hasBit (t : Terrain) (tile : Tile) (rb : RoadBits)
    (dir d : DiagDirection) :
    hasBit (cleanStep t tile rb dir) d =
      if d = dir then (hasBit rb d && connectiveDir t tile dir) else hasBit rb d := by
  rcases rb with ⟨bnw, bsw, bse, bne⟩
  cases hc : connectiveDir t tile dir <;>
    cases dir <;> cases d <;>
    cases bnw <;> cases bsw <;> cases bse <;> cases bne <;>
    simp [cleanStep, hasBit, rbAnd, rbNe0, rbXor, diagDirToRoadBits, hc]

/-- Claim C1: for every valid tile and every proposed road-bit set,
CleanUpRoadBits keeps a proposed direction if and only if the neighbor
tile in that direction is connective per the spec's case analysis
(clear/trees always; tunnel-bridge, station or road unconditionally for
a standard road tile and otherwise only with the mirrored bit present;
railway only as a legal flat perpendicular crossing; water only when
not real water; anything else or out of bounds never), every
non-connective direction is removed, and the result never contains a
bit absent from the input. -/
theorem cleanUpRoadBits_keeps_iff_connective (t : Terrain) (tile : Tile) (org_rb : RoadBits)
    (h : t.valid tile = true) (d : DiagDirection) :
    hasBit (CleanUpRoadBits t tile org_rb) d =
      (hasBit org_rb d && specConnective t tile d) := by
  rw [specConnective_eq_connectiveDir]
  unfold CleanUpRoadBits
  simp only [h, Bool.not_true, Bool.false_eq_true, if_false, allDiagDirs, List.foldl]
  rw [cleanStep_hasBit, cleanStep_hasBit, cleanStep_hasBit, cleanStep_hasBit]
  cases d <;> simp

theorem cleanUpRoadBits_keeps_iff_connective_witness :
    egTerrain.valid (2, 2) = true ∧
    hasBit (CleanUpRoadBits egTerrain (2, 2) ⟨true, true, true, true⟩) DiagDirection.nw =
      (hasBit (⟨true, true, true, true⟩ : RoadBits) DiagDirection.nw &&
        specConnective egTerrain (2, 2) DiagDirection.nw) :=
  ⟨by decide,
   cleanUpRoadBits_keeps_iff_connective egTerrain (2, 2) ⟨true, true, true, true⟩
     (by decide) DiagDirection.nw⟩

/-- Claim C9: if the tile passed to CleanUpRoadBits is itself invalid,
the function returns the empty road-bit set whatever the proposal. -/
theorem cleanUpRoadBits_invalid_tile (t : Terrain) (tile : Tile) (org_rb : RoadBits)
    (h : t.valid tile = false) :
    CleanUpRoadBits t tile org_rb = RoadBits.none := by
  unfold CleanUpRoadBits
  simp [h]

theorem cleanUpRoadBits_invalid_tile_witness :
    egTerrain.valid (-1, 0) = false ∧
    CleanUpRoadBits egTerrain (-1, 0) ⟨true, true, true, true⟩ = RoadBits.none :=
  ⟨by decide,
   cleanUpRoadBits_invalid_tile egTerrain (-1, 0) ⟨true, true, true, true⟩ (by decide)⟩

/-- Claim C5: under the adjacency contract (an assertion-style
precondition, not a recoverable error), CanBuildRoadFromTo returns true
iff the destination slope is flat or a single uniform incline and
either both endpoints share the same incline at different heights or at
least one endpoint is flat. -/
theorem canBuildRoadFromTo_iff (t : Terrain) (begin_t end_t : Tile)
    (hadj : DistanceManhattan begin_t end_t = 1) :
    CanBuildRoadFromTo t begin_t end_t = true ↔ specEdgeAdmissible t begin_t end_t := by
  unfold CanBuildRoadFromTo specEdgeAdmissible
  cases hb : (t.data begin_t).slope <;> cases he : (t.data end_t).slope <;>
    simp [isInclinedSlope] <;> tauto

theorem canBuildRoadFromTo_iff_witness :
    DistanceManhattan (2, 2) (2, 3) = 1 ∧
    (CanBuildRoadFromTo egTerrain (2, 2) (2, 3) = true ↔
      specEdgeAdmissible egTerrain (2, 2) (2, 3)) :=
  ⟨by decide, canBuildRoadFromTo_iff egTerrain (2, 2) (2, 3) (by decide)⟩

lemma mem_allDiagDirs (d : DiagDirection) : d ∈ allDiagDirs := by
  cases d <;> simp [allDiagDirs]

/-- Shared characterization of membership in the neighbour list. -/
lemma mem_publicRoad_getNeighbours (t : Terrain) (tile t2 : Tile) :
    t2 ∈ PublicRoad_GetNeighbours t tile ↔
      ∃ d, t2 = tileAddByDiagDir tile d ∧ t.valid t2 = true ∧
        CanBuildRoadFromTo t tile t2 = true ∧
        ((t.data t2).ttype = TileType.clear ∨ (t.data t2).ttype = TileType.trees ∨
          (t.data t2).ttype = TileType.road) := by
  unfold PublicRoad_GetNeighbours
  rw [List.mem_filterMap]
  constructor
  · rintro ⟨d, -, hd⟩
    dsimp only at hd
    split at hd
    · rename_i hc
      obtain rfl : tileAddByDiagDir tile d = t2 := by simpa using hd
      simp only [Bool.and_eq_true, Bool.or_eq_true, isTileType, decide_eq_true_eq] at hc
      exact ⟨d, rfl, hc.1.1, hc.1.2, by tauto⟩
    · simp at hd
  · rintro ⟨d, rfl, hv, hb, hty⟩
    refine ⟨d, mem_allDiagDirs d, ?_⟩
    have hc : (t.valid (tileAddByDiagDir tile d) &&
        CanBuildRoadFromTo t tile (tileAddByDiagDir tile d) &&
        (isTileType t (tileAddByDiagDir tile d) .clear ||
          isTileType t (tileAddByDiagDir tile d) .trees ||
          isTileType t (tileAddByDiagDir tile d) .road)) = true := by
      simp only [Bool.and_eq_true, Bool.or_eq_true, isTileType, decide_eq_true_eq]
      exact ⟨⟨hv, hb⟩, by tauto⟩
    simp [hc]

/-- Claim C6: the neighbour expansion yields at most four tiles, and a
tile is in the list iff it is a one-step cardinal offset of the current
tile that is a valid map position, passes the edge-buildability
precheck, and has type clear ground, trees or road. -/
theorem publicRoad_getNeighbours_spec (t : Terrain) (tile t2 : Tile) :
    (PublicRoad_GetNeighbours t tile).length ≤ 4 ∧
    (t2 ∈ PublicRoad_GetNeighbours t tile ↔
      ∃ d, t2 = tileAddByDiagDir tile d ∧ t.valid t2 = true ∧
        CanBuildRoadFromTo t tile t2 = true ∧
        ((t.data t2).ttype = TileType.clear ∨ (t.data t2).ttype = TileType.trees ∨
          (t.data t2).ttype = TileType.road)) := by
  constructor
  · have h := List.length_filterMap_le (fun d =>
      let t2 := tileAddByDiagDir tile d
      if t.valid t2 && CanBuildRoadFromTo t tile t2 &&
          (isTileType t t2 .clear || isTileType t t2 .trees || isTileType t t2 .road)
      then some t2 else none) allDiagDirs
    simpa [PublicRoad_GetNeighbours, allDiagDirs] using h
  · exact mem_publicRoad_getNeighbours t tile t2

lemma distanceManhattan_tileAdd (a : Tile) (d : DiagDirection) :
    DistanceManhattan (tileAddByDiagDir a d) a = 1 := by
  cases d <;> simp [DistanceManhattan, tileAddByDiagDir]

lemma distanceManhattan_triangle (a b c : Tile) :
    DistanceManhattan a c ≤ DistanceManhattan a b + DistanceManhattan b c := by
  unfold DistanceManhattan
  have h1 : (a.1 - c.1).natAbs ≤ (a.1 - b.1).natAbs + (b.1 - c.1).natAbs := by omega
  have h2 : (a.2 - c.2).natAbs ≤ (a.2 - b.2).natAbs + (b.2 - c.2).natAbs := by omega
  omega

/-- Claim C7: the heuristic is admissible.  For every buildable path
(each node a neighbour of the previous one per
PublicRoad_GetNeighbours) from `a` to `b`, the heuristic value
PublicRoad_CalculateH of the start never exceeds the path's total cost,
which accumulates the constant unit cost PublicRoad_CalculateG per
step. -/
theorem publicRoad_heuristic_admissible (t : Terrain) (p : List Tile) (a b : Tile)
    (hchain : List.Chain (fun u v => v ∈ PublicRoad_GetNeighbours t u) a p)
    (hlast : (a :: p).getLast? = some b) :
    PublicRoad_CalculateH b a ≤ pathCost (a :: p) := by
  induction p generalizing a with
  | nil =>
    obtain rfl : a = b := by simpa using hlast
    simp [PublicRoad_CalculateH, DistanceManhattan, pathCost]
  | cons c rest ih =>
    rcases List.chain_cons.mp hchain with ⟨hac, hrest⟩
    have hlast' : (c :: rest).getLast? = some b := by
      rw [List.getLast?_cons_cons] at hlast
      exact hlast
    have hIH := ih c hrest hlast'
    obtain ⟨d, rfl, -, -, -⟩ := (mem_publicRoad_getNeighbours t a c).mp hac
    have hda : DistanceManhattan b a ≤
        DistanceManhattan b (tileAddByDiagDir a d) + 1 := by
      have := distanceManhattan_triangle b (tileAddByDiagDir a d) a
      rw [distanceManhattan_tileAdd] at this
      exact this
    show DistanceManhattan b a ≤ PublicRoad_CalculateG (tileAddByDiagDir a d) a +
      pathCost (tileAddByDiagDir a d :: rest)
    unfold PublicRoad_CalculateG
    have : DistanceManhattan b (tileAddByDiagDir a d) ≤
        pathCost (tileAddByDiagDir a d :: rest) := hIH
    omega

theorem publicRoad_heuristic_admissible_witness :
    List.Chain (fun u v => v ∈ PublicRoad_GetNeighbours egTerrain u) (3, 3) [(4, 3)] ∧
    ((3, 3) :: [((4 : Int), (3 : Int))]).getLast? = some (4, 3) ∧
    PublicRoad_CalculateH (4, 3) (3, 3) ≤ pathCost ((3, 3) :: [(4, 3)]) :=
  ⟨List.Chain.cons (by decide) List.Chain.nil, by decide,
   publicRoad_heuristic_admissible egTerrain [(4, 3)] (3, 3) (4, 3)
     (List.Chain.cons (by decide) List.Chain.nil) (by decide)⟩

lemma updateTile_self (m : TerrMap) (t : Tile) (d : TileData) :
    updateTile m t d t = d := by
  simp [updateTile]

lemma updateTile_other (m : TerrMap) (t : Tile) (d : TileData) (t' : Tile) (h : t' ≠ t) :
    updateTile m t d t' = m t' := by
  simp [updateTile, h]

lemma rbOr_none_right (a : RoadBits) : rbOr a RoadBits.none = a := by
  rcases a with ⟨x, y, z, w⟩
  simp [rbOr, RoadBits.none]

lemma rbOr_none_left (a : RoadBits) : rbOr RoadBits.none a = a := by
  rcases a with ⟨x, y, z, w⟩
  simp [rbOr, RoadBits.none]

lemma rbOr_assoc (a b c : RoadBits) : rbOr (rbOr a b) c = rbOr a (rbOr b c) := by
  rcases a with ⟨a1, a2, a3, a4⟩
  rcases b with ⟨b1, b2, b3, b4⟩
  rcases c with ⟨c1, c2, c3, c4⟩
  simp [rbOr, Bool.or_assoc]

lemma hasBit_rbOr (a b : RoadBits) (d : DiagDirection) :
    hasBit (rbOr a b) d = (hasBit a d || hasBit b d) := by
  cases d <;> rfl

lemma rbSub_rbOr_left (a b : RoadBits) : rbSub a (rbOr a b) := by
  intro d hd
  rw [hasBit_rbOr, hd, Bool.true_or]

lemma touched_false_contrib_none (p : List Tile) :
    ∀ (child : Option Tile) (tile : Tile), touched child p tile = false →
      contrib child p tile = RoadBits.none := by
  induction p with
  | nil => intro child tile _; rfl
  | cons t rest ih =>
    intro child tile h
    rw [touched] at h
    rcases Bool.or_eq_false_iff.mp h with ⟨h1, h2⟩
    rw [contrib, h1, if_neg (by simp), ih (some t) tile h2, rbOr_none_right]

lemma foundEndNodeGo_cons (ct : Tile → Nat) (child : Option Tile) (t : Tile)
    (rest : List Tile) (m : TerrMap) :
    foundEndNodeGo ct child (t :: rest) m =
      foundEndNodeGo ct (some t) rest
        (if child.isSome || rest.head?.isSome then
          (if (m t).ttype = TileType.road then
            updateTile m t
              { m t with roadBitsRoad := rbOr (m t).roadBitsRoad (stepBits child t rest.head?) }
          else
            updateTile m t (makeRoadNormalData (m t) (stepBits child t rest.head?) (ct t)))
        else m) := rfl

lemma touched_cons (child : Option Tile) (t : Tile) (rest : List Tile) (tile : Tile) :
    touched child (t :: rest) tile =
      ((decide (t = tile) && (child.isSome || rest.head?.isSome)) ||
        touched (some t) rest tile) := rfl

lemma contrib_cons (child : Option Tile) (t : Tile) (rest : List Tile) (tile : Tile) :
    contrib child (t :: rest) tile =
      rbOr
        (if (decide (t = tile) && (child.isSome || rest.head?.isSome)) = true
         then stepBits child t rest.head? else RoadBits.none)
        (contrib (some t) rest tile) := rfl

lemma make_setBits (p : TileData) (b b' : RoadBits) (tid : Nat) :
    ({ makeRoadNormalData p b tid with roadBitsRoad := b' } : TileData) =
      makeRoadNormalData p b' tid := rfl

lemma make_ttype (p : TileData) (b : RoadBits) (tid : Nat) :
    (makeRoadNormalData p b tid).ttype = TileType.road := rfl

lemma make_bits (p : TileData) (b : RoadBits) (tid : Nat) :
    (makeRoadNormalData p b tid).roadBitsRoad = b := rfl

/-- Exact characterization of the materialization walk, pointwise on
tiles: a written tile gets the union of all its per-occurrence step
bits, or-ed onto its previous bits when it already was a road tile and
installed via MakeRoadNormal otherwise; any other tile is untouched. -/
lemma foundEndNodeGo_spec (ct : Tile → Nat) (p : List Tile) :
    ∀ (child : Option Tile) (m : TerrMap) (tile : Tile),
      foundEndNodeGo ct child p m tile =
        if touched child p tile = true then
          (if (m tile).ttype = TileType.road then
            { m tile with roadBitsRoad := rbOr (m tile).roadBitsRoad (contrib child p tile) }
          else makeRoadNormalData (m tile) (contrib child p tile) (ct tile))
        else m tile := by
  induction p with
  | nil =>
    intro child m tile
    simp [foundEndNodeGo, touched]
  | cons t rest ih =>
    intro child m tile
    rw [foundEndNodeGo_cons, ih, touched_cons, contrib_cons]
    by_cases hproc : (child.isSome || rest.head?.isSome) = true
    · by_cases htile : t = tile
      · subst htile
        have hc' := touched_false_contrib_none rest (some t) t
        by_cases hty : (m t).ttype = TileType.road
        · by_cases htouch : touched (some t) rest t = true
          · simp [hproc, hty, htouch, updateTile_self, rbOr_assoc]
          · simp [hproc, hty, htouch, updateTile_self,
              hc' (Bool.not_eq_true _ |>.mp htouch), rbOr_none_right]
        · by_cases htouch : touched (some t) rest t = true
          · simp [hproc, hty, htouch, updateTile_self, makeRoadNormalData]
          · simp [hproc, hty, htouch, updateTile_self, makeRoadNormalData,
              hc' (Bool.not_eq_true _ |>.mp htouch), rbOr_none_right]
      · have hmt : (if child.isSome || rest.head?.isSome then
            (if (m t).ttype = TileType.road then
              updateTile m t
                { m t with roadBitsRoad := rbOr (m t).roadBitsRoad (stepBits child t rest.head?) }
            else
              updateTile m t (makeRoadNormalData (m t) (stepBits child t rest.head?) (ct t)))
            else m) tile = m tile := by
          split_ifs <;> first
            | rfl
            | exact updateTile_other m t _ tile (fun hcontra => htile hcontra.symm)
        rw [hmt]
        simp [htile, rbOr_none_left]
    · have hor := Bool.or_eq_false_iff.mp (Bool.not_eq_true _ |>.mp hproc)
      have hrest : rest = [] :=
        List.head?_eq_none_iff.mp (Option.not_isSome_iff_eq_none.mp (by simp [hor.2]))
      subst hrest
      simp [foundEndNodeGo, touched, contrib, hor.1]

lemma rbOr_self (a : RoadBits) : rbOr a a = a := by
  rcases a with ⟨x, y, z, w⟩
  simp [rbOr]

lemma rbOr_right_absorb (x c : RoadBits) : rbOr (rbOr x c) c = rbOr x c := by
  rw [rbOr_assoc, rbOr_self]

lemma setBits_eta (d : TileData) :
    ({ d with roadBitsRoad := d.roadBitsRoad } : TileData) = d := rfl

lemma touched_not_mem (p : List Tile) :
    ∀ (child : Option Tile) (x : Tile), x ∉ p → touched child p x = false := by
  induction p with
  | nil => intro child x _; rfl
  | cons t rest ih =>
    intro child x hx
    rw [touched_cons]
    have hne : t ≠ x := fun h => hx (h ▸ List.mem_cons_self t rest)
    have hrest : x ∉ rest := fun h => hx (List.mem_cons_of_mem t h)
    simp [hne, ih (some t) x hrest]

lemma touched_mem (p : List Tile) :
    ∀ (child : Option Tile) (x : Tile), touched child p x = true → x ∈ p := by
  intro child x h
  by_contra hx
  rw [touched_not_mem p child x hx] at h
  exact Bool.false_ne_true h

lemma stepBits_none_none (tile : Tile) :
    stepBits Option.none tile Option.none = RoadBits.none := by
  simp [stepBits, rbOr_none_right]

lemma touched_single (l2 : List Tile) (tile : Tile) (h2 : tile ∉ l2) :
    ∀ (l1 : List Tile) (child : Option Tile), tile ∉ l1 →
      touched child (l1 ++ tile :: l2) tile =
        ((l1.getLast?.or child).isSome || l2.head?.isSome) := by
  intro l1
  induction l1 with
  | nil =>
    intro child _
    rw [List.nil_append, touched_cons, touched_not_mem l2 (some tile) tile h2]
    simp [Option.none_or]
  | cons a l1' ih =>
    intro child ha
    have hne : a ≠ tile := fun h => ha (h ▸ List.mem_cons_self a l1')
    have hl1' : tile ∉ l1' := fun h => ha (List.mem_cons_of_mem a h)
    rw [List.cons_append, touched_cons, ih (some a) hl1']
    cases l1' with
    | nil => simp [hne]
    | cons b l1'' =>
      have : (b :: l1'').getLast?.isSome := by
        exact Option.isSome_iff_exists.mpr
          ⟨(b :: l1'').getLast (by simp), List.getLast?_eq_getLast _ (by simp)⟩
      obtain ⟨c, hc⟩ := Option.isSome_iff_exists.mp this
      simp [hne, List.getLast?_cons_cons, hc]

lemma contrib_single (l2 : List Tile) (tile : Tile) (h2 : tile ∉ l2) :
    ∀ (l1 : List Tile) (child : Option Tile), tile ∉ l1 →
      contrib child (l1 ++ tile :: l2) tile =
        stepBits (l1.getLast?.or child) tile l2.head? := by
  intro l1
  induction l1 with
  | nil =>
    intro child _
    rw [List.nil_append, contrib_cons,
      touched_false_contrib_none l2 (some tile) tile (touched_not_mem l2 (some tile) tile h2),
      rbOr_none_right]
    simp only [List.getLast?_nil, Option.none_or]
    by_cases hng : (child.isSome || l2.head?.isSome) = true
    · simp [hng]
    · have hor := Bool.or_eq_false_iff.mp (Bool.not_eq_true _ |>.mp hng)
      have hchild : child = Option.none := Option.not_isSome_iff_eq_none.mp (by simp [hor.1])
      have hhead : l2.head? = Option.none := Option.not_isSome_iff_eq_none.mp (by simp [hor.2])
      subst hchild
      rw [hhead]
      simp [hng, stepBits_none_none]
  | cons a l1' ih =>
    intro child ha
    have hne : a ≠ tile := fun h => ha (h ▸ List.mem_cons_self a l1')
    have hl1' : tile ∉ l1' := fun h => ha (List.mem_cons_of_mem a h)
    rw [List.cons_append, contrib_cons, ih (some a) hl1']
    cases l1' with
    | nil => simp [hne, rbOr_none_left]
    | cons b l1'' =>
      have : (b :: l1'').getLast?.isSome := by
        exact Option.isSome_iff_exists.mpr
          ⟨(b :: l1'').getLast (by simp), List.getLast?_eq_getLast _ (by simp)⟩
      obtain ⟨c, hc⟩ := Option.isSome_iff_exists.mp this
      simp [hne, List.getLast?_cons_cons, hc, rbOr_none_left]

/-- Claim C3: path materialization is idempotent and monotonic.  For a
found path written goal-first as `l1 ++ tile :: l2` around any node
`tile` of interest (no node repeated, and `tile` an interior connection
point), (a) running PublicRoad_FoundEndNode a second time over the
terrain produced by the first run changes no tile's data (in particular
road-bit sets are identical), (b) a single run never removes a road bit
from any existing road tile, and (c) at `tile` itself: if it already
was a road tile the computed bits are or-ed into its existing set,
otherwise it becomes a fresh plain road tile with exactly the computed
bits, owned by the settlement the CalcClosestTownFromTile oracle names,
town-owned with no secondary owner. -/
theorem foundEndNode_idempotent_monotonic (ct : Tile → Nat) (t : Terrain)
    (l1 l2 : List Tile) (tile : Tile)
    (hnd : (l1 ++ tile :: l2).Nodup) (hint : l1 ≠ [] ∨ l2 ≠ []) :
    (∀ t' : Tile,
      (PublicRoad_FoundEndNode ct (PublicRoad_FoundEndNode ct t (l1 ++ tile :: l2))
          (l1 ++ tile :: l2)).data t' =
        (PublicRoad_FoundEndNode ct t (l1 ++ tile :: l2)).data t') ∧
    (∀ t' : Tile, (t.data t').ttype = TileType.road →
      rbSub (t.data t').roadBitsRoad
        ((PublicRoad_FoundEndNode ct t (l1 ++ tile :: l2)).data t').roadBitsRoad) ∧
    (if (t.data tile).ttype = TileType.road then
      (PublicRoad_FoundEndNode ct t (l1 ++ tile :: l2)).data tile =
        { t.data tile with
          roadBitsRoad := rbOr (t.data tile).roadBitsRoad
            (stepBits l1.getLast? tile l2.head?) }
    else
      (PublicRoad_FoundEndNode ct t (l1 ++ tile :: l2)).data tile =
        makeRoadNormalData (t.data tile) (stepBits l1.getLast? tile l2.head?) (ct tile) ∧
      ((PublicRoad_FoundEndNode ct t (l1 ++ tile :: l2)).data tile).town = ct tile ∧
      ((PublicRoad_FoundEndNode ct t (l1 ++ tile :: l2)).data tile).roadOwner = Owner.town ∧
      ((PublicRoad_FoundEndNode ct t (l1 ++ tile :: l2)).data tile).tramOwner = Owner.nobody) := by
  have hparts := List.nodup_append.mp hnd
  have htile_l1 : tile ∉ l1 := fun h => hparts.2.2 h (List.mem_cons_self tile l2)
  have htile_l2 : tile ∉ l2 := (List.nodup_cons.mp hparts.2.1).1
  refine ⟨?_, ?_, ?_⟩
  · intro t'
    simp only [PublicRoad_FoundEndNode]
    rw [foundEndNodeGo_spec ct (l1 ++ tile :: l2) Option.none
        (foundEndNodeGo ct Option.none (l1 ++ tile :: l2) t.data) t',
      foundEndNodeGo_spec ct (l1 ++ tile :: l2) Option.none t.data t']
    by_cases htouch : touched Option.none (l1 ++ tile :: l2) t' = true
    · by_cases hty : (t.data t').ttype = TileType.road
      · simp [htouch, hty, rbOr_right_absorb]
      · simp [htouch, hty, makeRoadNormalData, rbOr_self]
    · simp [htouch]
  · intro t' hty
    simp only [PublicRoad_FoundEndNode]
    rw [foundEndNodeGo_spec ct (l1 ++ tile :: l2) Option.none t.data t']
    by_cases htouch : touched Option.none (l1 ++ tile :: l2) t' = true
    · rw [if_pos htouch, if_pos hty]
      exact rbSub_rbOr_left _ _
    · rw [if_neg htouch]
      exact fun d h => h
  · have htouch : touched Option.none (l1 ++ tile :: l2) tile = true := by
      rw [touched_single l2 tile htile_l2 l1 Option.none htile_l1, Option.or_none]
      rcases hint with h1 | h2
      · have : l1.getLast?.isSome := Option.isSome_iff_exists.mpr
          ⟨l1.getLast h1, List.getLast?_eq_getLast l1 h1⟩
        simp [this]
      · have : l2.head?.isSome := by
          cases l2 with
          | nil => exact absurd rfl h2
          | cons a l2' => simp
        simp [this]
    have hcontrib : contrib Option.none (l1 ++ tile :: l2) tile =
        stepBits l1.getLast? tile l2.head? := by
      rw [contrib_single l2 tile htile_l2 l1 Option.none htile_l1, Option.or_none]
    simp only [PublicRoad_FoundEndNode]
    rw [foundEndNodeGo_spec ct (l1 ++ tile :: l2) Option.none t.data tile,
      if_pos htouch, hcontrib]
    by_cases hty : (t.data tile).ttype = TileType.road
    · rw [if_pos hty, if_pos hty]
    · rw [if_neg hty, if_neg hty]
      exact ⟨rfl, rfl, rfl, rfl⟩

theorem foundEndNode_idempotent_monotonic_witness :
    (([(2, 2)] ++ (2, 3) :: [(2, 4)] : List Tile).Nodup ∧
      (([(2, 2)] : List Tile) ≠ [] ∨ ([(2, 4)] : List Tile) ≠ [])) ∧
    ((∀ t' : Tile,
      (PublicRoad_FoundEndNode (fun _ => 0)
          (PublicRoad_FoundEndNode (fun _ => 0) egTerrain ([(2, 2)] ++ (2, 3) :: [(2, 4)]))
          ([(2, 2)] ++ (2, 3) :: [(2, 4)])).data t' =
        (PublicRoad_FoundEndNode (fun _ => 0) egTerrain
          ([(2, 2)] ++ (2, 3) :: [(2, 4)])).data t') ∧
    (∀ t' : Tile, (egTerrain.data t').ttype = TileType.road →
      rbSub (egTerrain.data t').roadBitsRoad
        ((PublicRoad_FoundEndNode (fun _ => 0) egTerrain
          ([(2, 2)] ++ (2, 3) :: [(2, 4)])).data t').roadBitsRoad) ∧
    (if (egTerrain.data (2, 3)).ttype = TileType.road then
      (PublicRoad_FoundEndNode (fun _ => 0) egTerrain
          ([(2, 2)] ++ (2, 3) :: [(2, 4)])).data (2, 3) =
        { egTerrain.data (2, 3) with
          roadBitsRoad := rbOr (egTerrain.data (2, 3)).roadBitsRoad
            (stepBits ([(2, 2)] : List Tile).getLast? (2, 3) ([(2, 4)] : List Tile).head?) }
    else
      (PublicRoad_FoundEndNode (fun _ => 0) egTerrain
          ([(2, 2)] ++ (2, 3) :: [(2, 4)])).data (2, 3) =
        makeRoadNormalData (egTerrain.data (2, 3))
          (stepBits ([(2, 2)] : List Tile).getLast? (2, 3) ([(2, 4)] : List Tile).head?) 0 ∧
      ((PublicRoad_FoundEndNode (fun _ => 0) egTerrain
          ([(2, 2)] ++ (2, 3) :: [(2, 4)])).data (2, 3)).town = 0 ∧
      ((PublicRoad_FoundEndNode (fun _ => 0) egTerrain
          ([(2, 2)] ++ (2, 3) :: [(2, 4)])).data (2, 3)).roadOwner = Owner.town ∧
      ((PublicRoad_FoundEndNode (fun _ => 0) egTerrain
          ([(2, 2)] ++ (2, 3) :: [(2, 4)])).data (2, 3)).tramOwner = Owner.nobody)) :=
  ⟨⟨by decide, Or.inl (by decide)⟩,
   foundEndNode_idempotent_monotonic (fun _ => 0) egTerrain [(2, 2)] [(2, 4)] (2, 3)
     (by decide) (Or.inl (by decide))⟩

lemma hasBit_none (d : DiagDirection) : hasBit RoadBits.none d = false := by
  cases d <;> rfl

lemma hasBit_rbAnd (a b : RoadBits) (d : DiagDirection) :
    hasBit (rbAnd a b) d = (hasBit a d && hasBit b d) := by
  cases d <;> rfl

lemma hasBit_diagDirToRoadBits (d d' : DiagDirection) :
    hasBit (diagDirToRoadBits d') d = true ↔ d = d' := by
  cases d <;> cases d' <;> simp [hasBit, diagDirToRoadBits]

lemma rbNe0_iff (z : RoadBits) : rbNe0 z = true ↔ ∃ d, hasBit z d = true := by
  rcases z with ⟨a, b, c, e⟩
  constructor
  · intro h
    rw [rbNe0, Bool.or_eq_true, Bool.or_eq_true, Bool.or_eq_true] at h
    rcases h with ((h1 | h2) | h3) | h4
    · exact ⟨.nw, h1⟩
    · exact ⟨.sw, h2⟩
    · exact ⟨.se, h3⟩
    · exact ⟨.ne, h4⟩
  · rintro ⟨d, hd⟩
    cases d <;> simp_all [rbNe0, hasBit]

lemma rbSub_rbOr_mono_left (b1 b2 tr : RoadBits) (hs : rbSub b1 b2) :
    rbSub (rbOr b1 tr) (rbOr b2 tr) := by
  intro d hd
  rw [hasBit_rbOr, Bool.or_eq_true] at hd
  rw [hasBit_rbOr]
  rcases hd with h | h
  · rw [hs d h, Bool.true_or]
  · rw [h, Bool.or_true]

lemma rbNe0_rbAnd_mono (x x' m : RoadBits) (hs : rbSub x x')
    (h : rbNe0 (rbAnd x m) = true) : rbNe0 (rbAnd x' m) = true := by
  rw [rbNe0_iff] at h ⊢
  obtain ⟨d, hd⟩ := h
  rw [hasBit_rbAnd, Bool.and_eq_true] at hd
  exact ⟨d, by rw [hasBit_rbAnd, hs d hd.1, hd.2]; rfl⟩

lemma tileAdd_inj (a : Tile) (d1 d2 : DiagDirection) :
    tileAddByDiagDir a d1 = tileAddByDiagDir a d2 ↔ d1 = d2 := by
  cases d1 <;> cases d2 <;> simp [tileAddByDiagDir, Prod.ext_iff] <;> omega

lemma tileAdd_opposite (a : Tile) (d : DiagDirection) :
    tileAddByDiagDir (tileAddByDiagDir a d) (oppositeDir d) = a := by
  cases d <;> simp [tileAddByDiagDir, oppositeDir, Prod.ext_iff]

lemma diagdirBetweenTiles_some (a b : Tile) (d : DiagDirection)
    (h : diagdirBetweenTiles a b = some d) : b = tileAddByDiagDir a d := by
  unfold diagdirBetweenTiles at h
  split_ifs at h <;> simp_all

lemma diagdirBetweenTiles_add (a : Tile) (d : DiagDirection) :
    diagdirBetweenTiles a (tileAddByDiagDir a d) = some d := by
  cases d with
  | ne => simp [diagdirBetweenTiles]
  | se =>
    rw [diagdirBetweenTiles, if_neg ((tileAdd_inj a .se .ne).not.mpr (by simp)),
      if_pos rfl]
  | sw =>
    rw [diagdirBetweenTiles, if_neg ((tileAdd_inj a .sw .ne).not.mpr (by simp)),
      if_neg ((tileAdd_inj a .sw .se).not.mpr (by simp)), if_pos rfl]
  | nw =>
    rw [diagdirBetweenTiles, if_neg ((tileAdd_inj a .nw .ne).not.mpr (by simp)),
      if_neg ((tileAdd_inj a .nw .se).not.mpr (by simp)),
      if_neg ((tileAdd_inj a .nw .sw).not.mpr (by simp)), if_pos rfl]

lemma hasBit_dirRoadBits (a b : Tile) (d : DiagDirection) :
    hasBit (dirRoadBits a b) d = true ↔ b = tileAddByDiagDir a d := by
  unfold dirRoadBits
  cases h : diagdirBetweenTiles a b with
  | none =>
    rw [hasBit_none]
    constructor
    · intro hcontra; exact absurd hcontra (by simp)
    · intro hb
      subst hb
      rw [diagdirBetweenTiles_add] at h
      exact absurd h (by simp)
  | some d' =>
    have hb := diagdirBetweenTiles_some a b d' h
    rw [hasBit_diagDirToRoadBits]
    subst hb
    rw [tileAdd_inj]
    constructor
    · intro hdd; exact hdd ▸ rfl
    · intro hdd; exact hdd.symm

lemma hasBit_stepBits (child : Option Tile) (tile : Tile) (next : Option Tile)
    (d : DiagDirection) :
    hasBit (stepBits child tile next) d = true ↔
      (child = some (tileAddByDiagDir tile d) ∨ next = some (tileAddByDiagDir tile d)) := by
  unfold stepBits
  rw [hasBit_rbOr, Bool.or_eq_true]
  constructor
  · rintro (h | h)
    · cases child with
      | none => rw [hasBit_none] at h; exact absurd h (by simp)
      | some c => exact Or.inl (by rw [(hasBit_dirRoadBits tile c d).mp h])
    · cases next with
      | none => rw [hasBit_none] at h; exact absurd h (by simp)
      | some c => exact Or.inr (by rw [(hasBit_dirRoadBits tile c d).mp h])
  · rintro (h | h)
    · subst h
      exact Or.inl ((hasBit_dirRoadBits tile _ d).mpr rfl)
    · subst h
      exact Or.inr (by cases child <;> exact (hasBit_dirRoadBits tile _ d).mpr rfl)

/-- Every bit the materialization walk contributes to some tile points
at another walk position which is itself written and receives the
mirrored bit back — unless the bit points at the walk's incoming child,
which only happens at the head of the list. -/
lemma contrib_mirror (p : List Tile) :
    ∀ (child : Option Tile) (tile : Tile) (d : DiagDirection),
      hasBit (contrib child p tile) d = true →
        (child = some (tileAddByDiagDir tile d) ∧ p.head? = some tile) ∨
        (touched child p (tileAddByDiagDir tile d) = true ∧
          hasBit (contrib child p (tileAddByDiagDir tile d)) (oppositeDir d) = true) := by
  induction p with
  | nil =>
    intro child tile d h
    rw [show contrib child [] tile = RoadBits.none from rfl, hasBit_none] at h
    exact absurd h (by simp)
  | cons t rest ih =>
    intro child tile d h
    rw [contrib_cons, hasBit_rbOr, Bool.or_eq_true] at h
    rcases h with hhead | hrest
    · by_cases hg : (decide (t = tile) && (child.isSome || rest.head?.isSome)) = true
      · rw [if_pos hg] at hhead
        rw [Bool.and_eq_true, decide_eq_true_eq] at hg
        obtain ⟨rfl, hproc⟩ := hg
        rcases (hasBit_stepBits child t rest.head? d).mp hhead with hc | hn
        · exact Or.inl ⟨hc, rfl⟩
        · obtain ⟨rest', hrest'⟩ : ∃ rest', rest = tileAddByDiagDir t d :: rest' := by
            cases rest with
            | nil => exact absurd hn (by simp)
            | cons a rest' => exact ⟨rest', by rw [List.head?_cons] at hn; simp_all⟩
          refine Or.inr ⟨?_, ?_⟩
          · rw [touched_cons, Bool.or_eq_true]
            refine Or.inr ?_
            rw [hrest', touched_cons, Bool.or_eq_true]
            exact Or.inl (by simp)
          · rw [contrib_cons, hasBit_rbOr, Bool.or_eq_true]
            refine Or.inr ?_
            rw [hrest', contrib_cons, hasBit_rbOr, Bool.or_eq_true]
            refine Or.inl ?_
            rw [if_pos (by simp)]
            refine (hasBit_stepBits (some t) (tileAddByDiagDir t d) rest'.head?
              (oppositeDir d)).mpr ?_
            exact Or.inl (by rw [tileAdd_opposite])
      · rw [if_neg hg, hasBit_none] at hhead
        exact absurd hhead (by simp)
    · rcases ih (some t) tile d hrest with ⟨hc, hhd⟩ | ⟨ht, hb⟩
      · obtain rfl : t = tileAddByDiagDir tile d := by injection hc
        refine Or.inr ⟨?_, ?_⟩
        · rw [touched_cons, Bool.or_eq_true]
          refine Or.inl ?_
          rw [Bool.and_eq_true, decide_eq_true_eq]
          exact ⟨rfl, by rw [hhd]; simp⟩
        · rw [contrib_cons, hasBit_rbOr, Bool.or_eq_true]
          refine Or.inl ?_
          rw [if_pos (by rw [Bool.and_eq_true, decide_eq_true_eq]; exact ⟨rfl, by rw [hhd]; simp⟩)]
          refine (hasBit_stepBits child (tileAddByDiagDir tile d) rest.head?
            (oppositeDir d)).mpr ?_
          exact Or.inr (by rw [hhd, tileAdd_opposite])
      · refine Or.inr ⟨?_, ?_⟩
        · rw [touched_cons, Bool.or_eq_true]
          exact Or.inr ht
        · rw [contrib_cons, hasBit_rbOr, Bool.or_eq_true]
          exact Or.inr hb

lemma foundEndNodeGo_upgrade (ct : Tile → Nat) (p : List Tile) (child : Option Tile)
    (m : TerrMap) (tile : Tile) :
    UpgradeData (m tile) (foundEndNodeGo ct child p m tile) := by
  rw [foundEndNodeGo_spec]
  by_cases htouch : touched child p tile = true
  · rw [if_pos htouch]
    by_cases hty : (m tile).ttype = TileType.road
    · rw [if_pos hty]
      exact Or.inr (Or.inr ⟨hty, hty, rfl, rbSub_rbOr_left _ _, rfl⟩)
    · rw [if_neg hty]
      exact Or.inr (Or.inl ⟨rfl, rfl⟩)
  · rw [if_neg htouch]
    exact Or.inl rfl

/-- Connectivity of a direction only improves under upgrades of the
terrain data (validity unchanged). -/
lemma connectiveDir_upgrade (t t' : Terrain) (hvalid : t'.valid = t.valid)
    (hup : ∀ x : Tile, UpgradeData (t.data x) (t'.data x))
    (tile : Tile) (d : DiagDirection)
    (h : connectiveDir t tile d = true) : connectiveDir t' tile d = true := by
  simp only [connectiveDir, IsPossibleCrossing, isTileType] at h ⊢
  rw [hvalid]
  by_cases hv : t.valid (tileAddByDiagDir tile d) = true
  · rw [if_pos hv] at h ⊢
    rcases hup (tileAddByDiagDir tile d) with heq | hrn | h3
    · rw [heq]
      exact h
    · simp [hrn.1, isNormalRoadTile, hrn.2]
    · obtain ⟨hd1, hd2, hrtt, hbits, htram⟩ := h3
      simp only [hd1] at h
      simp only [hd2]
      have hnorm_eq : isNormalRoadTile (t'.data (tileAddByDiagDir tile d)) =
          isNormalRoadTile (t.data (tileAddByDiagDir tile d)) := by
        unfold isNormalRoadTile
        rw [hd1, hd2, hrtt]
      rw [hnorm_eq]
      by_cases hn : isNormalRoadTile (t.data (tileAddByDiagDir tile d)) = true
      · simp [hn]
      · simp only [hn, Bool.false_eq_true, if_false] at h ⊢
        simp only [getAnyRoadBits, htram]
        exact rbNe0_rbAnd_mono _ _ _
          (rbSub_rbOr_mono_left _ _ _ hbits)
          (by simpa [getAnyRoadBits] using h)
  · rw [if_neg hv] at h
    exact absurd h (by simp)

/-- Claim C4: materialization preserves the network connectivity
invariant without re-invoking the Validator.  If every committed road
tile of the terrain satisfies the invariant and every node of the found
path is a valid map position, then after PublicRoad_FoundEndNode every
committed road tile still has each set bit pointing at a neighbor that
is connective for the mirrored direction per the Validator's rules: old
bits stay connective because materialization only upgrades tiles, and
each newly written bit points at an adjacent path node that itself
becomes a road tile carrying the mirrored bit. -/
theorem publicRoad_materialization_preserves_invariant (ct : Tile → Nat)
    (t : Terrain) (p : List Tile)
    (hinv : RoadInvariant t)
    (hpv : ∀ x ∈ p, t.valid x = true) :
    RoadInvariant (PublicRoad_FoundEndNode ct t p) := by
  intro tile d hval hty hbit
  have hup : ∀ x : Tile,
      UpgradeData (t.data x) ((PublicRoad_FoundEndNode ct t p).data x) :=
    fun x => foundEndNodeGo_upgrade ct p Option.none t.data x
  have hmono : ∀ (x : Tile) (e : DiagDirection), connectiveDir t x e = true →
      connectiveDir (PublicRoad_FoundEndNode ct t p) x e = true :=
    connectiveDir_upgrade t (PublicRoad_FoundEndNode ct t p) rfl hup
  have hvalt : t.valid tile = true := hval
  have hdata : (PublicRoad_FoundEndNode ct t p).data tile =
      if touched Option.none p tile = true then
        (if (t.data tile).ttype = TileType.road then
          { t.data tile with
            roadBitsRoad := rbOr (t.data tile).roadBitsRoad (contrib Option.none p tile) }
        else makeRoadNormalData (t.data tile) (contrib Option.none p tile) (ct tile))
      else t.data tile :=
    foundEndNodeGo_spec ct p Option.none t.data tile
  have hcontrib_case : hasBit (contrib Option.none p tile) d = true →
      connectiveDir (PublicRoad_FoundEndNode ct t p) tile d = true := by
    intro hc
    rcases contrib_mirror p Option.none tile d hc with ⟨habs, -⟩ | ⟨htn, hbn⟩
    · exact absurd habs (by simp)
    · have hnmem : tileAddByDiagDir tile d ∈ p :=
        touched_mem p Option.none (tileAddByDiagDir tile d) htn
      have hnvalid : t.valid (tileAddByDiagDir tile d) = true := hpv _ hnmem
      have hndata : (PublicRoad_FoundEndNode ct t p).data (tileAddByDiagDir tile d) =
          if touched Option.none p (tileAddByDiagDir tile d) = true then
            (if (t.data (tileAddByDiagDir tile d)).ttype = TileType.road then
              { t.data (tileAddByDiagDir tile d) with
                roadBitsRoad := rbOr (t.data (tileAddByDiagDir tile d)).roadBitsRoad
                  (contrib Option.none p (tileAddByDiagDir tile d)) }
            else makeRoadNormalData (t.data (tileAddByDiagDir tile d))
              (contrib Option.none p (tileAddByDiagDir tile d))
              (ct (tileAddByDiagDir tile d)))
          else t.data (tileAddByDiagDir tile d) :=
        foundEndNodeGo_spec ct p Option.none t.data (tileAddByDiagDir tile d)
      rw [if_pos htn] at hndata
      simp only [connectiveDir]
      rw [if_pos (show (PublicRoad_FoundEndNode ct t p).valid (tileAddByDiagDir tile d) = true
        from hnvalid)]
      by_cases hty1 : (t.data (tileAddByDiagDir tile d)).ttype = TileType.road
      · rw [if_pos hty1] at hndata
        simp only [hndata, hty1]
        by_cases hrtt : (t.data (tileAddByDiagDir tile d)).roadTileType = RoadTileType.normal
        · simp [isNormalRoadTile, hrtt]
        · rw [if_neg (by simp [isNormalRoadTile, hrtt])]
          refine (rbNe0_iff _).mpr ⟨oppositeDir d, ?_⟩
          rw [hasBit_rbAnd, mirror_diagDirToRoadBits, Bool.and_eq_true]
          constructor
          · simp only [getAnyRoadBits]
            rw [hasBit_rbOr, hasBit_rbOr, hbn]
            simp
          · exact (hasBit_diagDirToRoadBits _ _).mpr rfl
      · rw [if_neg hty1] at hndata
        simp [hndata, makeRoadNormalData, isNormalRoadTile]
  by_cases htouch : touched Option.none p tile = true
  · rw [if_pos htouch] at hdata
    by_cases hty0 : (t.data tile).ttype = TileType.road
    · rw [if_pos hty0] at hdata
      simp only [hdata] at hbit
      rw [hasBit_rbOr, Bool.or_eq_true] at hbit
      rcases hbit with hold | hc
      · exact hmono tile d (hinv tile d hvalt hty0 hold)
      · exact hcontrib_case hc
    · rw [if_neg hty0] at hdata
      simp only [hdata, makeRoadNormalData] at hbit
      exact hcontrib_case hbit
  · rw [if_neg htouch] at hdata
    rw [hdata] at hty hbit
    exact hmono tile d (hinv tile d hvalt hty hbit)

theorem publicRoad_materialization_preserves_invariant_witness :
    (RoadInvariant egTerrain ∧
      (∀ x ∈ ([(3, 3), (4, 3)] : List Tile), egTerrain.valid x = true)) ∧
    RoadInvariant (PublicRoad_FoundEndNode (fun _ => 0) egTerrain [(3, 3), (4, 3)]) := by
  have hinv : RoadInvariant egTerrain := by
    intro tile d hval hty hbit
    exact absurd hty (by simp [egTerrain]; split <;> simp)
  have hpv : ∀ x ∈ ([(3, 3), (4, 3)] : List Tile), egTerrain.valid x = true := by
    intro x hx
    rcases List.mem_cons.mp hx with rfl | hx'
    · decide
    · rcases List.mem_cons.mp hx' with rfl | hx''
      · decide
      · exact absurd hx'' (by simp)
  exact ⟨⟨hinv, hpv⟩,
    publicRoad_materialization_preserves_invariant (fun _ => 0) egTerrain
      [(3, 3), (4, 3)] hinv hpv⟩

lemma roundStep_some_length {found : Nat → Town → Town → Bool} {r : Nat}
    {ts : List Town} {b : Town} {ord next : List Town}
    (h : roundStep found r ts = some (b, ord, next)) : next.length < ts.length := by
  unfold roundStep at h
  cases hs : sortByPopulation ts with
  | nil => rw [hs] at h; exact absurd h (by simp)
  | cons x rest =>
    rw [hs] at h
    simp only [Option.some.injEq, Prod.mk.injEq] at h
    obtain ⟨-, -, hnext⟩ := h
    have hlen1 : (sortByDistanceFrom x rest).length = rest.length :=
      (List.perm_insertionSort (distLE x.xy) rest).length_eq
    have hlen2 : (sortByPopulation ts).length = ts.length :=
      (List.perm_insertionSort popLE ts).length_eq
    rw [hs] at hlen2
    calc next.length ≤ (sortByDistanceFrom x rest).length := by
          rw [← hnext]; exact List.length_filter_le _ _
      _ = rest.length := hlen1
      _ < ts.length := by rw [← hlen2]; simp

lemma runRounds_none (found : Nat → Town → Town → Bool) (r : Nat) (ts : List Town)
    (h : roundStep found r ts = none) : runRounds found r ts = none := by
  conv_lhs => rw [runRounds.eq_def]
  split
  · rfl
  · rename_i b ord next heq
    rw [h] at heq
    exact absurd heq (by simp)

lemma runRounds_step (found : Nat → Town → Town → Bool) (r : Nat) (ts : List Town)
    (b : Town) (ord next : List Town) (h : roundStep found r ts = some (b, ord, next)) :
    runRounds found r ts =
      if next.isEmpty then some (r + 1) else runRounds found (r + 1) next := by
  conv_lhs => rw [runRounds.eq_def]
  split
  · rename_i heq
    rw [h] at heq
    exact absurd heq (by simp)
  · rename_i b' ord' next' heq
    rw [h] at heq
    obtain ⟨-, -, rfl⟩ : b = b' ∧ ord = ord' ∧ next = next' := by
      simpa using heq
    rfl

lemma roundStep_isSome (found : Nat → Town → Town → Bool) (r : Nat) (ts : List Town)
    (h : ts ≠ []) : ∃ b ord next, roundStep found r ts = some (b, ord, next) := by
  unfold roundStep
  cases hs : sortByPopulation ts with
  | nil =>
    have hlen : (sortByPopulation ts).length = ts.length :=
      (List.perm_insertionSort popLE ts).length_eq
    rw [hs] at hlen
    exact absurd (List.length_eq_zero.mp hlen.symm) h
  | cons x rest => exact ⟨x, _, _, rfl⟩

lemma runRounds_total (found : Nat → Town → Town → Bool) :
    ∀ (N : Nat) (ts : List Town) (r : Nat), ts.length ≤ N → ts ≠ [] →
      ∃ n, runRounds found r ts = some n ∧ n ≤ r + ts.length := by
  intro N
  induction N with
  | zero =>
    intro ts r hlen hne
    cases ts with
    | nil => exact absurd rfl hne
    | cons a l => simp at hlen
  | succ N ih =>
    intro ts r hlen hne
    obtain ⟨b, ord, next, hstep⟩ := roundStep_isSome found r ts hne
    rw [runRounds_step found r ts b ord next hstep]
    by_cases hempty : next.isEmpty = true
    · refine ⟨r + 1, by rw [if_pos hempty], ?_⟩
      have hpos : 1 ≤ ts.length := by
        cases ts with
        | nil => exact absurd rfl hne
        | cons a l => simp
      omega
    · rw [if_neg hempty]
      have hlt := roundStep_some_length hstep
      have hne' : next ≠ [] := by
        intro hc
        subst hc
        exact hempty rfl
      obtain ⟨n, hn, hbound⟩ := ih next (r + 1) (by omega) hne'
      exact ⟨n, hn, by omega⟩

/-- Claim C10: GeneratePublicRoads has the unstated precondition of a
non-empty settlement registry.  With zero towns the first round's
unconditional read of the sorted vector's first element is out of
bounds (modelled as `none`), while every run from at least one town
keeps all such accesses in bounds and produces a result. -/
theorem generatePublicRoads_nonempty_precondition (found : Nat → Town → Town → Bool) :
    GeneratePublicRoads found [] = none ∧
    (∀ ts : List Town, ts ≠ [] → (GeneratePublicRoads found ts).isSome = true) := by
  constructor
  · exact runRounds_none found 0 [] rfl
  · intro ts hne
    obtain ⟨n, hn, -⟩ := runRounds_total found ts.length ts 0 le_rfl hne
    unfold GeneratePublicRoads
    rw [hn]
    rfl

theorem generatePublicRoads_nonempty_precondition_witness :
    GeneratePublicRoads (fun _ _ _ => false) [] = none ∧
    (([townA] : List Town) ≠ [] ∧
      (GeneratePublicRoads (fun _ _ _ => false) [townA]).isSome = true) :=
  ⟨(generatePublicRoads_nonempty_precondition (fun _ _ _ => false)).1,
   ⟨by decide,
    (generatePublicRoads_nonempty_precondition (fun _ _ _ => false)).2 [townA] (by decide)⟩⟩

/-- Counterexample to claim C2 as stated: with two settlements and a
search oracle that never finds a path (both settlements permanently
unreachable from each other), the generation entry point nevertheless
returns — after exactly two rounds — because each round permanently
erases its begin settlement from the unconnected set instead of
re-attempting it. -/
theorem generatePublicRoads_unreachable_terminates_cex :
    GeneratePublicRoads (fun _ _ _ => false) [townA, townB] = some 2 := by
  have h1 : roundStep (fun _ _ _ => false) 0 [townA, townB] =
      some (townA, [townB], [townB]) := by rfl
  have h2 : roundStep (fun _ _ _ => false) 1 [townB] = some (townB, [], []) := by rfl
  show runRounds (fun _ _ _ => false) 0 [townA, townB] = some 2
  rw [runRounds_step (fun _ _ _ => false) 0 [townA, townB] townA [townB] [townB] h1,
    if_neg (by decide),
    runRounds_step (fun _ _ _ => false) 1 [townB] townB [] [] h2]
  rfl

/-- Claim C2 (amended): GeneratePublicRoads always returns, within at
most one round per settlement, even when settlements are permanently
unreachable — each round removes its start settlement from the
unconnected set for good, so the set strictly shrinks; unreachable
settlements are simply left unconnected rather than retried forever. -/
theorem generatePublicRoads_always_terminates (found : Nat → Town → Town → Bool)
    (ts : List Town) (h : ts ≠ []) :
    ∃ n, GeneratePublicRoads found ts = some n ∧ n ≤ ts.length := by
  obtain ⟨n, hn, hb⟩ := runRounds_total found ts.length ts 0 le_rfl h
  exact ⟨n, hn, by omega⟩

theorem generatePublicRoads_always_terminates_witness :
    (([townA, townB] : List Town) ≠ []) ∧
    (∃ n, GeneratePublicRoads (fun _ _ _ => false) [townA, townB] = some n ∧
      n ≤ ([townA, townB] : List Town).length) :=
  ⟨by decide,
   generatePublicRoads_always_terminates (fun _ _ _ => false) [townA, townB] (by decide)⟩

/-- Claim C8: the structure of one round.  The unconnected set is
sorted by ascending population and its head — a settlement of minimal
population — is removed as the round's begin; the remaining settlements
are sorted by ascending Manhattan distance from the begin settlement
and searched in exactly that order; a settlement lands in the next
round's unconnected set iff its search in that order failed. -/
theorem roundStep_ordering_spec (found : Nat → Town → Town → Bool) (r : Nat)
    (ts : List Town) (h : ts ≠ []) :
    ∃ b rest ord next,
      roundStep found r ts = some (b, ord, next) ∧
      sortByPopulation ts = b :: rest ∧
      (b :: rest).Perm ts ∧
      List.Sorted popLE (b :: rest) ∧
      (∀ x ∈ ts, b.population ≤ x.population) ∧
      ord = sortByDistanceFrom b rest ∧
      ord.Perm rest ∧
      List.Sorted (distLE b.xy) ord ∧
      next = ord.filter (fun e => !found r b e) ∧
      (∀ e, e ∈ next ↔ e ∈ ord ∧ found r b e = false) := by
  cases hs : sortByPopulation ts with
  | nil =>
    have hlen : (sortByPopulation ts).length = ts.length :=
      (List.perm_insertionSort popLE ts).length_eq
    rw [hs] at hlen
    exact absurd (List.length_eq_zero.mp hlen.symm) h
  | cons b rest =>
    have hperm : (b :: rest).Perm ts := by
      rw [← hs]
      exact List.perm_insertionSort popLE ts
    have hsorted : List.Sorted popLE (b :: rest) := by
      rw [← hs]
      exact List.sorted_insertionSort popLE ts
    refine ⟨b, rest, sortByDistanceFrom b rest, _, ?_, rfl, hperm, hsorted, ?_, rfl, ?_, ?_, rfl, ?_⟩
    · unfold roundStep
      rw [hs]
    · intro x hx
      rcases List.mem_cons.mp (hperm.mem_iff.mpr hx) with rfl | hx'
      · exact Nat.le_refl _
      · exact (List.sorted_cons.mp hsorted).1 x hx'
    · exact List.perm_insertionSort (distLE b.xy) rest
    · exact List.sorted_insertionSort (distLE b.xy) rest
    · intro e
      rw [List.mem_filter]
      constructor
      · rintro ⟨h1, h2⟩
        exact ⟨h1, by simpa using h2⟩
      · rintro ⟨h1, h2⟩
        exact ⟨h1, by simpa using h2⟩

theorem roundStep_ordering_spec_witness :
    (([townA, townB] : List Town) ≠ []) ∧
    (∃ b rest ord next,
      roundStep (fun _ _ _ => false) 0 [townA, townB] = some (b, ord, next) ∧
      sortByPopulation [townA, townB] = b :: rest ∧
      (b :: rest).Perm [townA, townB] ∧
      List.Sorted popLE (b :: rest) ∧
      (∀ x ∈ ([townA, townB] : List Town), b.population ≤ x.population) ∧
      ord = sortByDistanceFrom b rest ∧
      ord.Perm rest ∧
      List.Sorted (distLE b.xy) ord ∧
      next = ord.filter (fun e => !(fun (_ : Nat) (_ : Town) (_ : Town) => false) 0 b e) ∧
      (∀ e, e ∈ next ↔ e ∈ ord ∧ (fun (_ : Nat) (_ : Town) (_ : Town) => false) 0 b e = false)) :=
  ⟨by decide,
   roundStep_ordering_spec (fun _ _ _ => false) 0 [townA, townB] (by decide)⟩
